import Mathlib

set_option maxRecDepth 8000

/-!
Shallow embedding of the CHIP-8 interpreter core from `src/virtual_machine.rs`.

Machine integers are modelled as `Nat` with explicit `% 256` (`u8`) wherever the
Rust code relies on wrapping arithmetic.  The array fields (`memory`,
`registers`, `stack`) are modelled as total functions `Nat → Nat`; in the Rust
source they are fixed-size arrays (4096, 16 and 100 cells) whose out-of-range
indexing is a panic, so theorems about operations that take addresses from
machine state carry the corresponding in-bounds hypotheses.  Faults reachable
through the instruction set itself (stack underflow and overflow, an invalid
arithmetic sub-opcode, an unknown opcode pattern) are modelled by `Option`:
`none` is a fatal fault.  The `Arc`/`Mutex`/atomic wrappers in the source only
serve cross-thread sharing; a single fetch-decode-execute cycle sees them as
plain values, which is how they appear here.  The random byte drawn by
`fastrand::u8(..)` in opcode class `0xC` is passed to `execute_opcode` as an
explicit `random` argument.
-/

/-- Colour of one framebuffer cell (`CanvasColor` in the source).  `White` is
the cleared state; a drawn (lit) pixel is `Black`. -/
inductive CanvasColor where
  | White
  | Black
deriving DecidableEq

/-- `CanvasColor::change`: toggle the cell in place, returning `true` exactly
when a previously lit (`Black`) cell was turned off. -/
def CanvasColor.change : CanvasColor → CanvasColor × Bool
  | .White => (.Black, false)
  | .Black => (.White, true)

/-- The 64×32 framebuffer `[[CanvasColor; WIDTH]; HEIGHT]`, indexed
`canvas row col` like `canvas[y][x]` in the source.  The interpreter only ever
addresses `row < 32`, `col < 64` (draw reduces indices `% 32` / `% 64`, clear
rewrites the whole grid). -/
abbrev Canvas := Nat → Nat → CanvasColor

/-- Write one framebuffer cell, leaving every other cell unchanged. -/
def setCell (canvas : Canvas) (row col : Nat) (v : CanvasColor) : Canvas :=
  fun r c => if r = row ∧ c = col then v else canvas r c

/-- The comparison selector of the skip instructions (`enum Relation`). -/
inductive Relation where
  | Equal
  | NotEqual

/-- The iteration domain of the two nested loops of `draw`: all pairs
`(dy, dx)` with `dy < height` (outer loop) and `dx < 8` (inner loop), in
execution order. -/
def drawPairs (height : Nat) : List (Nat × Nat) :=
  (List.range height).flatMap (fun dy => (List.range 8).map (fun dx => (dy, dx)))

/-- One iteration of the inner loop body of `draw`: for the pair `p = (dy, dx)`
read sprite byte `memory[i + dy]`, and if bit `0x80 >> dx` is set, toggle the
framebuffer cell at row `(y + dy) % 32`, column `(x + dx) % 64` (the `u8`
additions wrap `% 256` first) and accumulate the collision flag. -/
def drawStep (mem : Nat → Nat) (i x y : Nat) (state : Canvas × Bool) (p : Nat × Nat) :
    Canvas × Bool :=
  let byte := mem (i + p.1)
  if byte &&& (0x80 >>> p.2) ≠ 0 then
    let row := (y + p.1) % 256 % 32
    let col := (x + p.2) % 256 % 64
    let res := (state.1 row col).change
    (setCell state.1 row col res.1, state.2 || res.2)
  else state

/-- The interpreter state (`struct VirtualMachine`).  `memory` holds 4096
bytes, `registers` 16 bytes, `stack` 100 `u16` slots; `pressed_key` is the
shared single-key latch and `canvas` the shared framebuffer. -/
structure VirtualMachine where
  memory : Nat → Nat
  registers : Nat → Nat
  stack : Nat → Nat
  stack_size : Nat
  i : Nat
  pc : Nat
  delay_timer : Nat
  sound_timer : Nat
  pressed_key : Option Nat
  should_increment_pc : Bool
  canvas : Canvas

namespace VirtualMachine

/-- `get_memory`: read a byte; addresses `≥ 4096` are a fault in the source. -/
def get_memory (m : VirtualMachine) (address : Nat) : Nat :=
  m.memory address

/-- `set_memory`: write a byte; addresses `≥ 4096` are a fault in the source. -/
def set_memory (m : VirtualMachine) (address byte : Nat) : VirtualMachine :=
  { m with memory := fun a => if a = address then byte else m.memory a }

/-- `get_register`: register indices are always the nibbles `0–15`. -/
def get_register (m : VirtualMachine) (register : Nat) : Nat :=
  m.registers register

/-- `set_register`: write one register. -/
def set_register (m : VirtualMachine) (register byte : Nat) : VirtualMachine :=
  { m with registers := fun r => if r = register then byte else m.registers r }

/-- `set_flag`: write the flag register, `registers[15]`. -/
def set_flag (m : VirtualMachine) (flag : Nat) : VirtualMachine :=
  { m with registers := fun r => if r = 15 then flag else m.registers r }

/-- `inc_pc`: advance the program counter over one 2-byte opcode. -/
def inc_pc (m : VirtualMachine) : VirtualMachine :=
  { m with pc := m.pc + 2 }

/-- `call`: advance PC past the call opcode, push that return address, jump to
`address`.  The push indexes `stack[stack_size]`, which in the source panics
when the 100-slot stack is full: that overflow is the `none` case. -/
def call (m0 : VirtualMachine) (address : Nat) : Option VirtualMachine :=
  let m := m0.inc_pc
  if m.stack_size < 100 then
    some { m with
      stack := fun k => if k = m.stack_size then m.pc else m.stack k,
      stack_size := m.stack_size + 1,
      pc := address,
      should_increment_pc := false }
  else none

/-- `_return`: pop the saved PC.  The source asserts `stack_size >= 1`;
underflow is the `none` case. -/
def _return (m : VirtualMachine) : Option VirtualMachine :=
  if 1 ≤ m.stack_size then
    some { m with
      stack_size := m.stack_size - 1,
      pc := m.stack (m.stack_size - 1),
      should_increment_pc := false }
  else none

/-- `jump_to`: set PC absolutely and suppress the automatic advance. -/
def jump_to (m : VirtualMachine) (address : Nat) : VirtualMachine :=
  { m with pc := address, should_increment_pc := false }

/-- `skip_if_byte`: advance PC by an extra 2 when register `register` compares
to the immediate `byte` under `relation`. -/
def skip_if_byte (m : VirtualMachine) (register byte : Nat) (relation : Relation) :
    VirtualMachine :=
  let value := m.get_register register
  let condition :=
    match relation with
    | .Equal => value == byte
    | .NotEqual => value != byte
  if condition then m.inc_pc else m

/-- `skip_if_register`: advance PC by an extra 2 when the two registers compare
under `relation`. -/
def skip_if_register (m : VirtualMachine) (register1 register2 : Nat)
    (relation : Relation) : VirtualMachine :=
  let value1 := m.get_register register1
  let value2 := m.get_register register2
  let condition :=
    match relation with
    | .Equal => value1 == value2
    | .NotEqual => value1 != value2
  if condition then m.inc_pc else m

/-- `skip_if_key`: advance PC by an extra 2 when the pressed-key latch compares
to register `register`'s value under `relation` (`Equal` is
`key.is_some_and(|key| key == value)`, `NotEqual` is
`key.is_none() || key.is_some_and(|key| key != value)`).  The latch is read
without being modified. -/
def skip_if_key (m : VirtualMachine) (register : Nat) (relation : Relation) :
    VirtualMachine :=
  let value := m.get_register register
  let key := m.pressed_key
  let condition :=
    match relation with
    | .Equal =>
      match key with
      | some k => k == value
      | none => false
    | .NotEqual =>
      match key with
      | some k => k != value
      | none => true
  if condition then m.inc_pc else m

/-- `add_byte`: `wrapping_add` of an immediate into a register (no flag). -/
def add_byte (m : VirtualMachine) (register byte : Nat) : VirtualMachine :=
  m.set_register register ((m.get_register register + byte) % 256)

/-- `execute_math`: the eight arithmetic/logic sub-operations of opcode class
`0x8`.  Each arm yields the machine after its flag write (if any) together with
the `result` byte; the shared tail then stores `result` into register
`register_x`, exactly like the single `set_register` after the `match` in the
source.  `u8::overflowing_add` is `((a + b) % 256, 256 ≤ a + b)` and
`u8::overflowing_sub` is `((a + 256 - b) % 256, a < b)` for byte operands, and
the source stores `flag as u8` resp. `!flag as u8`.  An undefined sub-opcode is
the fatal `panic!()` arm, modelled as `none`. -/
def execute_math (m : VirtualMachine) (operation register_x register_y : Nat) :
    Option VirtualMachine :=
  let value_x := m.get_register register_x
  let value_y := m.get_register register_y
  let step : Option (VirtualMachine × Nat) :=
    if operation = 0x0 then some (m, value_y)
    else if operation = 0x1 then some (m, value_x ||| value_y)
    else if operation = 0x2 then some (m, value_x &&& value_y)
    else if operation = 0x3 then some (m, value_x ^^^ value_y)
    else if operation = 0x4 then
      some (m.set_flag (if 256 ≤ value_x + value_y then 1 else 0),
        (value_x + value_y) % 256)
    else if operation = 0x5 then
      some (m.set_flag (if value_y ≤ value_x then 1 else 0),
        (value_x + 256 - value_y) % 256)
    else if operation = 0x6 then
      some (m.set_flag (value_x &&& 1), value_x >>> 1)
    else if operation = 0x7 then
      some (m.set_flag (if value_x ≤ value_y then 1 else 0),
        (value_y + 256 - value_x) % 256)
    else if operation = 0xE then
      some (m.set_flag (value_x >>> 7), (value_x <<< 1) % 256)
    else none
  step.map (fun s => s.1.set_register register_x s.2)

/-- `clear_canvas`: set every framebuffer cell to `White`. -/
def clear_canvas (m : VirtualMachine) : VirtualMachine :=
  { m with canvas := fun _ _ => CanvasColor.White }

/-- `draw`: blit the `height`-row sprite at `memory[i..]` to position
`(x, y)`, toggling set pixels with wraparound, then store the collision flag
(`1` iff some toggle turned a lit cell off) into register 15. -/
def draw (m : VirtualMachine) (x y height : Nat) : VirtualMachine :=
  let res := (drawPairs height).foldl (drawStep m.memory m.i x y) (m.canvas, false)
  set_flag { m with canvas := res.1 } (if res.2 then 1 else 0)

/-- `dump_registers`: `for index in 0..=register`, store register `index` at
`memory[i + index]`.  `i` is read from the threaded machine each iteration and
is never modified. -/
def dump_registers (m : VirtualMachine) (register : Nat) : VirtualMachine :=
  (List.range (register + 1)).foldl
    (fun mm index => mm.set_memory (mm.i + index) (mm.get_register index)) m

/-- `load_registers`: `for index in 0..=register`, load register `index` from
`memory[i + index]`. -/
def load_registers (m : VirtualMachine) (register : Nat) : VirtualMachine :=
  (List.range (register + 1)).foldl
    (fun mm index => mm.set_register index (mm.get_memory (mm.i + index))) m

/-- `set_bcd`: store the decimal digits of register `register` at `i`, `i + 1`,
`i + 2` (hundreds, tens, units). -/
def set_bcd (m : VirtualMachine) (register : Nat) : VirtualMachine :=
  let value := m.get_register register
  let units := value % 10
  let tens := value / 10 % 10
  let hundreds := value / 10 / 10
  ((m.set_memory m.i hundreds).set_memory (m.i + 1) tens).set_memory (m.i + 2) units

/-- The trailing `if self.should_increment_pc { self.inc_pc() }` of
`execute_opcode`. -/
def finish_cycle (m : VirtualMachine) : VirtualMachine :=
  if m.should_increment_pc then m.inc_pc else m

/-- `execute_opcode`: one fetch-decode-execute cycle.  The fetch indexes
`memory[pc]` and `memory[pc + 1]`, a fault when out of range; decode follows
the fixed bit-slicing of the source; dispatch mirrors the `match` arm for arm,
with every `unreachable!()`/`panic!()` arm mapped to `none`.  The early
`return` of the key-wait opcode (`0xFX0A` with an empty latch) skips
`finish_cycle`, leaving PC unchanged. -/
def execute_opcode (m0 : VirtualMachine) (random : Nat) : Option VirtualMachine :=
  let m : VirtualMachine := { m0 with should_increment_pc := true }
  if m.pc + 1 < 4096 then
    let byte1 := m.get_memory m.pc
    let byte2 := m.get_memory (m.pc + 1)
    let address := ((byte1 &&& 0x0F) <<< 8) ||| byte2
    let register_x := byte1 &&& 0x0F
    let register_y := byte2 >>> 4
    let last_nibble := byte2 &&& 0x0F
    let cls := (byte1 &&& 0xF0) >>> 4
    if cls = 0x0 then
      if byte2 = 0xE0 then some (finish_cycle m.clear_canvas)
      else if byte2 = 0xEE then (m._return).map finish_cycle
      else (m.call address).map finish_cycle
    else if cls = 0x1 then some (finish_cycle (m.jump_to address))
    else if cls = 0x2 then (m.call address).map finish_cycle
    else if cls = 0x3 then
      some (finish_cycle (m.skip_if_byte register_x byte2 Relation.Equal))
    else if cls = 0x4 then
      some (finish_cycle (m.skip_if_byte register_x byte2 Relation.NotEqual))
    else if cls = 0x5 then
      if last_nibble = 0 then
        some (finish_cycle (m.skip_if_register register_x register_y Relation.Equal))
      else none
    else if cls = 0x6 then some (finish_cycle (m.set_register register_x byte2))
    else if cls = 0x7 then some (finish_cycle (m.add_byte register_x byte2))
    else if cls = 0x8 then
      (m.execute_math last_nibble register_x register_y).map finish_cycle
    else if cls = 0x9 then
      if last_nibble = 0 then
        some (finish_cycle (m.skip_if_register register_x register_y Relation.NotEqual))
      else none
    else if cls = 0xA then some (finish_cycle { m with i := address })
    else if cls = 0xB then
      some { m with pc := m.get_register 0 + address, should_increment_pc := false }
    else if cls = 0xC then
      some (finish_cycle (m.set_register register_x ((random % 256) &&& byte2)))
    else if cls = 0xD then
      some (finish_cycle
        (m.draw (m.get_register register_x) (m.get_register register_y) last_nibble))
    else if cls = 0xE then
      if byte2 = 0x9E then some (finish_cycle (m.skip_if_key register_x Relation.Equal))
      else if byte2 = 0xA1 then
        some (finish_cycle (m.skip_if_key register_x Relation.NotEqual))
      else none
    else if cls = 0xF then
      if byte2 = 0x07 then
        some (finish_cycle (m.set_register register_x m.delay_timer))
      else if byte2 = 0x0A then
        match m.pressed_key with
        | some code =>
          some (finish_cycle (set_register { m with pressed_key := none } register_x code))
        | none => some { m with pressed_key := none }
      else if byte2 = 0x15 then
        some (finish_cycle { m with delay_timer := m.get_register register_x })
      else if byte2 = 0x18 then
        some (finish_cycle { m with sound_timer := m.get_register register_x })
      else if byte2 = 0x1E then
        some (finish_cycle { m with i := m.i + m.get_register register_x })
      else if byte2 = 0x29 then
        some (finish_cycle { m with i := 0x50 + m.get_register register_x * 5 })
      else if byte2 = 0x33 then some (finish_cycle (m.set_bcd register_x))
      else if byte2 = 0x55 then some (finish_cycle (m.dump_registers register_x))
      else if byte2 = 0x65 then some (finish_cycle (m.load_registers register_x))
      else none
    else none
  else none

/-- The machine state right after `VirtualMachine::new` (with an all-zero ROM):
all bytes zero, `i = pc = 0x200`, empty stack, no key, blank canvas.  Base
state for the concrete machines below. -/
def initial : VirtualMachine where
  memory := fun _ => 0
  registers := fun _ => 0
  stack := fun _ => 0
  stack_size := 0
  i := 0x200
  pc := 0x200
  delay_timer := 0
  sound_timer := 0
  pressed_key := none
  should_increment_pc := false
  canvas := fun _ _ => CanvasColor.White

end VirtualMachine

/-- A concrete machine for exercising the draw routine: a one-byte sprite
`0x80` at `i = 0x200` and a fully lit (all `Black`) framebuffer. -/
def testDrawMachine : VirtualMachine :=
  { VirtualMachine.initial with
    memory := fun a => if a = 0x200 then 0x80 else 0,
    canvas := fun _ _ => CanvasColor.Black }

/-- A machine whose sixteen registers all hold 1 (other state as `initial`). -/
def allOnesMachine : VirtualMachine :=
  { VirtualMachine.initial with registers := fun _ => 1 }

/-- A machine whose sixteen registers all hold 2 (other state as `initial`). -/
def allTwosMachine : VirtualMachine :=
  { VirtualMachine.initial with registers := fun _ => 2 }

/-- A machine whose ROM is the single opcode `0xF018` (sound-timer := V0),
with register 0 holding 1. -/
def soundMachine : VirtualMachine :=
  { VirtualMachine.initial with
    memory := fun a => if a = 0x200 then 0xF0 else if a = 0x201 then 0x18 else 0,
    registers := fun r => if r = 0 then 1 else 0 }

/-- A machine whose ROM is the single opcode `0xF30A` (wait for a key into
V3), with the latch holding key 7. -/
def keyMachine : VirtualMachine :=
  { VirtualMachine.initial with
    memory := fun a => if a = 0x200 then 0xF3 else if a = 0x201 then 0x0A else 0,
    pressed_key := some 7 }

/-- A machine whose ROM is the single opcode `0x3000` (skip if V0 = 0). -/
def skipMachine : VirtualMachine :=
  { VirtualMachine.initial with
    memory := fun a => if a = 0x200 then 0x30 else 0 }

/-- A machine whose ROM is the single opcode `0x2234` (call 0x234). -/
def callMachine : VirtualMachine :=
  { VirtualMachine.initial with
    memory := fun a => if a = 0x200 then 0x22 else if a = 0x201 then 0x34 else 0 }

/-! ### Decode and bit-manipulation helper lemmas -/

theorem decode_hi_nibble : ∀ n < 256, (n &&& 0xF0) >>> 4 = n / 16 := by decide

theorem decode_lo_nibble : ∀ n < 256, n &&& 0x0F = n % 16 := by decide

theorem decode_y_nibble : ∀ n < 256, n >>> 4 = n / 16 := by decide

theorem decode_address : ∀ a < 16, ∀ b < 256, ((a <<< 8) ||| b : Nat) = a * 256 + b := by
  decide

theorem shift128_eq_pow (c : Nat) (hc : c < 8) : (0x80 >>> c : Nat) = 2 ^ (7 - c) := by
  interval_cases c <;> rfl

theorem and_shift_testBit (n c : Nat) (hc : c < 8) :
    (n &&& (0x80 >>> c) ≠ 0) ↔ (n.testBit (7 - c) = true) := by
  rw [shift128_eq_pow c hc, Nat.and_two_pow]
  cases h : n.testBit (7 - c) <;> simp [h]

theorem change_fst_involutive (v : CanvasColor) : v.change.1.change.1 = v := by
  cases v <;> rfl

theorem change_snd_eq_black (v : CanvasColor) :
    (v.change.2 = true) ↔ v = CanvasColor.Black := by
  cases v <;> simp [CanvasColor.change]

theorem change_fst_eq_black (v : CanvasColor) :
    (v.change.1 = CanvasColor.Black) ↔ v = CanvasColor.White := by
  cases v <;> simp [CanvasColor.change]

/-! ### The draw loop domain -/

theorem mem_drawPairs (height : Nat) (p : Nat × Nat) :
    p ∈ drawPairs height ↔ p.1 < height ∧ p.2 < 8 := by
  obtain ⟨dy, dx⟩ := p
  simp only [drawPairs, List.mem_flatMap, List.mem_map, List.mem_range, Prod.mk.injEq]
  constructor
  · rintro ⟨a, ha, b, hb, h1, h2⟩
    exact ⟨h1 ▸ ha, h2 ▸ hb⟩
  · rintro ⟨h1, h2⟩
    exact ⟨dy, h1, dx, h2, rfl, rfl⟩

theorem nodup_drawPairs (height : Nat) : (drawPairs height).Nodup := by
  rw [drawPairs, List.nodup_flatMap]
  constructor
  · intro dy _
    exact (List.nodup_range 8).map (fun a b h => by
      simpa using congrArg Prod.snd h)
  · exact (List.nodup_range height).imp (fun hab q hq1 hq2 => by
      simp only [List.mem_map, List.mem_range] at hq1 hq2
      obtain ⟨b1, _, hb1⟩ := hq1
      obtain ⟨b2, _, hb2⟩ := hq2
      exact hab (by simpa using (congrArg Prod.fst hb1).trans (congrArg Prod.fst hb2).symm))

theorem drawPairs_target_inj (height x y : Nat) (hh : height ≤ 32)
    {p q : Nat × Nat} (hp : p ∈ drawPairs height) (hq : q ∈ drawPairs height)
    (hrow : (y + p.1) % 256 % 32 = (y + q.1) % 256 % 32)
    (hcol : (x + p.2) % 256 % 64 = (x + q.2) % 256 % 64) : p = q := by
  rw [mem_drawPairs] at hp hq
  rw [Nat.mod_mod_of_dvd _ (by norm_num), Nat.mod_mod_of_dvd _ (by norm_num)] at hrow
  rw [Nat.mod_mod_of_dvd _ (by norm_num), Nat.mod_mod_of_dvd _ (by norm_num)] at hcol
  obtain ⟨p1, p2⟩ := p
  obtain ⟨q1, q2⟩ := q
  simp only at hp hq hrow hcol
  simp only [Prod.mk.injEq]
  constructor <;> omega

/-! ### Characterisation of the draw fold -/

theorem foldl_drawStep_cell (mem : Nat → Nat) (i x y : Nat) :
    ∀ (L : List (Nat × Nat)), L.Nodup →
    (∀ p ∈ L, ∀ q ∈ L, (y + p.1) % 256 % 32 = (y + q.1) % 256 % 32 →
      (x + p.2) % 256 % 64 = (x + q.2) % 256 % 64 → p = q) →
    ∀ (canvas : Canvas) (b : Bool) (r c : Nat),
    (L.foldl (drawStep mem i x y) (canvas, b)).1 r c =
      if ∃ p ∈ L, mem (i + p.1) &&& (0x80 >>> p.2) ≠ 0 ∧
          (y + p.1) % 256 % 32 = r ∧ (x + p.2) % 256 % 64 = c then
        ((canvas r c).change).1
      else canvas r c := by
  intro L
  induction L with
  | nil => intro _ _ canvas b r c; simp
  | cons p T ih =>
    intro hnd hinj canvas b r c
    have hndT : T.Nodup := (List.nodup_cons.mp hnd).2
    have hpT : p ∉ T := (List.nodup_cons.mp hnd).1
    have hinjT : ∀ a ∈ T, ∀ q ∈ T, (y + a.1) % 256 % 32 = (y + q.1) % 256 % 32 →
        (x + a.2) % 256 % 64 = (x + q.2) % 256 % 64 → a = q :=
      fun a ha q hq => hinj a (List.mem_cons_of_mem p ha) q (List.mem_cons_of_mem p hq)
    rw [List.foldl_cons]
    by_cases hp : mem (i + p.1) &&& (0x80 >>> p.2) ≠ 0
    · have hstep : drawStep mem i x y (canvas, b) p =
          (setCell canvas ((y + p.1) % 256 % 32) ((x + p.2) % 256 % 64)
            ((canvas ((y + p.1) % 256 % 32) ((x + p.2) % 256 % 64)).change.1),
           b || (canvas ((y + p.1) % 256 % 32) ((x + p.2) % 256 % 64)).change.2) := by
        simp only [drawStep, if_pos hp]
      rw [hstep, ih hndT hinjT]
      by_cases htgt : (y + p.1) % 256 % 32 = r ∧ (x + p.2) % 256 % 64 = c
      · have hnotT : ¬ ∃ q ∈ T, mem (i + q.1) &&& (0x80 >>> q.2) ≠ 0 ∧
            (y + q.1) % 256 % 32 = r ∧ (x + q.2) % 256 % 64 = c := by
          rintro ⟨q, hqT, _, hqr, hqc⟩
          have : p = q := hinj p (List.mem_cons_self p T) q (List.mem_cons_of_mem p hqT)
            (by rw [htgt.1, hqr]) (by rw [htgt.2, hqc])
          exact hpT (this ▸ hqT)
        rw [if_neg hnotT, if_pos ⟨p, List.mem_cons_self p T, hp, htgt⟩]
        simp [setCell, htgt.1, htgt.2]
      · have hcell : setCell canvas ((y + p.1) % 256 % 32) ((x + p.2) % 256 % 64)
            ((canvas ((y + p.1) % 256 % 32) ((x + p.2) % 256 % 64)).change.1) r c
            = canvas r c := by
          simp only [setCell]
          rw [if_neg (fun h => htgt ⟨h.1.symm, h.2.symm⟩)]
        have hcond : (∃ q ∈ p :: T, mem (i + q.1) &&& (0x80 >>> q.2) ≠ 0 ∧
            (y + q.1) % 256 % 32 = r ∧ (x + q.2) % 256 % 64 = c) ↔
            (∃ q ∈ T, mem (i + q.1) &&& (0x80 >>> q.2) ≠ 0 ∧
            (y + q.1) % 256 % 32 = r ∧ (x + q.2) % 256 % 64 = c) := by
          constructor
          · rintro ⟨q, hq, hrest⟩
            rcases List.mem_cons.mp hq with rfl | hqT
            · exact absurd ⟨hrest.2.1, hrest.2.2⟩ htgt
            · exact ⟨q, hqT, hrest⟩
          · rintro ⟨q, hq, hrest⟩
            exact ⟨q, List.mem_cons_of_mem p hq, hrest⟩
        rw [hcell]
        simp only [hcond]
    · have hstep : drawStep mem i x y (canvas, b) p = (canvas, b) := by
        simp only [drawStep, if_neg hp]
      rw [hstep, ih hndT hinjT]
      have hcond : (∃ q ∈ p :: T, mem (i + q.1) &&& (0x80 >>> q.2) ≠ 0 ∧
          (y + q.1) % 256 % 32 = r ∧ (x + q.2) % 256 % 64 = c) ↔
          (∃ q ∈ T, mem (i + q.1) &&& (0x80 >>> q.2) ≠ 0 ∧
          (y + q.1) % 256 % 32 = r ∧ (x + q.2) % 256 % 64 = c) := by
        constructor
        · rintro ⟨q, hq, hrest⟩
          rcases List.mem_cons.mp hq with rfl | hqT
          · exact absurd hrest.1 (by simpa using hp)
          · exact ⟨q, hqT, hrest⟩
        · rintro ⟨q, hq, hrest⟩
          exact ⟨q, List.mem_cons_of_mem p hq, hrest⟩
      simp only [hcond]

theorem foldl_drawStep_collision (mem : Nat → Nat) (i x y : Nat) :
    ∀ (L : List (Nat × Nat)), L.Nodup →
    (∀ p ∈ L, ∀ q ∈ L, (y + p.1) % 256 % 32 = (y + q.1) % 256 % 32 →
      (x + p.2) % 256 % 64 = (x + q.2) % 256 % 64 → p = q) →
    ∀ (canvas : Canvas) (b : Bool),
    ((L.foldl (drawStep mem i x y) (canvas, b)).2 = true) ↔
      (b = true ∨ ∃ p ∈ L, mem (i + p.1) &&& (0x80 >>> p.2) ≠ 0 ∧
        canvas ((y + p.1) % 256 % 32) ((x + p.2) % 256 % 64) = CanvasColor.Black) := by
  intro L
  induction L with
  | nil => intro _ _ canvas b; simp
  | cons p T ih =>
    intro hnd hinj canvas b
    have hndT : T.Nodup := (List.nodup_cons.mp hnd).2
    have hpT : p ∉ T := (List.nodup_cons.mp hnd).1
    have hinjT : ∀ a ∈ T, ∀ q ∈ T, (y + a.1) % 256 % 32 = (y + q.1) % 256 % 32 →
        (x + a.2) % 256 % 64 = (x + q.2) % 256 % 64 → a = q :=
      fun a ha q hq => hinj a (List.mem_cons_of_mem p ha) q (List.mem_cons_of_mem p hq)
    rw [List.foldl_cons]
    by_cases hp : mem (i + p.1) &&& (0x80 >>> p.2) ≠ 0
    · have hstep : drawStep mem i x y (canvas, b) p =
          (setCell canvas ((y + p.1) % 256 % 32) ((x + p.2) % 256 % 64)
            ((canvas ((y + p.1) % 256 % 32) ((x + p.2) % 256 % 64)).change.1),
           b || (canvas ((y + p.1) % 256 % 32) ((x + p.2) % 256 % 64)).change.2) := by
        simp only [drawStep, if_pos hp]
      rw [hstep, ih hndT hinjT]
      have hframe : ∀ q ∈ T,
          setCell canvas ((y + p.1) % 256 % 32) ((x + p.2) % 256 % 64)
            ((canvas ((y + p.1) % 256 % 32) ((x + p.2) % 256 % 64)).change.1)
            ((y + q.1) % 256 % 32) ((x + q.2) % 256 % 64)
          = canvas ((y + q.1) % 256 % 32) ((x + q.2) % 256 % 64) := by
        intro q hq
        simp only [setCell]
        rw [if_neg]
        rintro ⟨h1, h2⟩
        have : q = p := hinj q (List.mem_cons_of_mem p hq) p (List.mem_cons_self p T)
          h1 h2
        exact hpT (this ▸ hq)
      constructor
      · rintro (hb | ⟨q, hq, hqpix, hqblack⟩)
        · rcases Bool.or_eq_true_iff.mp hb with hb | hflip
          · exact Or.inl hb
          · exact Or.inr ⟨p, List.mem_cons_self p T, hp,
              (change_snd_eq_black _).mp hflip⟩
        · exact Or.inr ⟨q, List.mem_cons_of_mem p hq, hqpix, (hframe q hq) ▸ hqblack⟩
      · rintro (hb | ⟨q, hq, hqpix, hqblack⟩)
        · exact Or.inl (by simp [hb])
        · rcases List.mem_cons.mp hq with rfl | hqT
          · exact Or.inl (by
              have : (canvas ((y + q.1) % 256 % 32) ((x + q.2) % 256 % 64)).change.2 = true :=
                (change_snd_eq_black _).mpr hqblack
              simp [this])
          · exact Or.inr ⟨q, hqT, hqpix, by rw [hframe q hqT]; exact hqblack⟩
    · have hstep : drawStep mem i x y (canvas, b) p = (canvas, b) := by
        simp only [drawStep, if_neg hp]
      rw [hstep, ih hndT hinjT]
      constructor
      · rintro (hb | ⟨q, hq, hrest⟩)
        · exact Or.inl hb
        · exact Or.inr ⟨q, List.mem_cons_of_mem p hq, hrest⟩
      · rintro (hb | ⟨q, hq, hrest⟩)
        · exact Or.inl hb
        · rcases List.mem_cons.mp hq with rfl | hqT
          · exact absurd hrest.1 (by simpa using hp)
          · exact Or.inr ⟨q, hqT, hrest⟩

/-! ### Draw-level lemmas -/

theorem draw_memory (m : VirtualMachine) (x y height : Nat) :
    (m.draw x y height).memory = m.memory := rfl

theorem draw_i (m : VirtualMachine) (x y height : Nat) :
    (m.draw x y height).i = m.i := rfl

theorem draw_canvas_cell (m : VirtualMachine) (x y height : Nat) (hh : height ≤ 32)
    (r c : Nat) :
    (m.draw x y height).canvas r c =
      if ∃ p ∈ drawPairs height, m.memory (m.i + p.1) &&& (0x80 >>> p.2) ≠ 0 ∧
          (y + p.1) % 256 % 32 = r ∧ (x + p.2) % 256 % 64 = c then
        ((m.canvas r c).change).1
      else m.canvas r c := by
  have h := foldl_drawStep_cell m.memory m.i x y (drawPairs height)
    (nodup_drawPairs height)
    (fun p hp q hq => drawPairs_target_inj height x y hh hp hq)
    m.canvas false r c
  exact h

theorem draw_flag_eq_one (m : VirtualMachine) (x y height : Nat) (hh : height ≤ 32) :
    ((m.draw x y height).registers 15 = 1) ↔
      (∃ p ∈ drawPairs height, m.memory (m.i + p.1) &&& (0x80 >>> p.2) ≠ 0 ∧
        m.canvas ((y + p.1) % 256 % 32) ((x + p.2) % 256 % 64) = CanvasColor.Black) := by
  have h := foldl_drawStep_collision m.memory m.i x y (drawPairs height)
    (nodup_drawPairs height)
    (fun p hp q hq => drawPairs_target_inj height x y hh hp hq)
    m.canvas false
  simp only [Bool.false_eq_true, false_or] at h
  show ((if ((drawPairs height).foldl (drawStep m.memory m.i x y) (m.canvas, false)).2
      then 1 else 0 : Nat) = 1) ↔ _
  rw [← h]
  by_cases hc : ((drawPairs height).foldl (drawStep m.memory m.i x y) (m.canvas, false)).2 = true
  · simp [hc]
  · simp [Bool.not_eq_true] at hc
    simp [hc]

theorem draw_flag_le_one (m : VirtualMachine) (x y height : Nat) :
    (m.draw x y height).registers 15 ≤ 1 := by
  show (if ((drawPairs height).foldl (drawStep m.memory m.i x y) (m.canvas, false)).2
      then 1 else 0 : Nat) ≤ 1
  split <;> omega

theorem drawPairs_cond_at (mem : Nat → Nat) (i x y n r c : Nat)
    (hn : n ≤ 32) (hr : r < n) (hc : c < 8) :
    (∃ p ∈ drawPairs n, mem (i + p.1) &&& (0x80 >>> p.2) ≠ 0 ∧
        (y + p.1) % 256 % 32 = (y + r) % 32 ∧ (x + p.2) % 256 % 64 = (x + c) % 64) ↔
      (mem (i + r) &&& (0x80 >>> c) ≠ 0) := by
  have hrc : (r, c) ∈ drawPairs n := (mem_drawPairs n (r, c)).mpr ⟨hr, hc⟩
  constructor
  · rintro ⟨p, hp, hpix, hrow, hcol⟩
    have hpeq : p = (r, c) := drawPairs_target_inj n x y hn hp hrc
      (hrow.trans (Nat.mod_mod_of_dvd _ (by norm_num)).symm)
      (hcol.trans (Nat.mod_mod_of_dvd _ (by norm_num)).symm)
    rw [hpeq] at hpix
    exact hpix
  · intro hpix
    exact ⟨(r, c), hrc, hpix,
      Nat.mod_mod_of_dvd _ (by norm_num), Nat.mod_mod_of_dvd _ (by norm_num)⟩

theorem drawPairs_flag_cond (mem : Nat → Nat) (i x y n : Nat) (canvas : Canvas)
    (v : CanvasColor) :
    (∃ p ∈ drawPairs n, mem (i + p.1) &&& (0x80 >>> p.2) ≠ 0 ∧
        canvas ((y + p.1) % 256 % 32) ((x + p.2) % 256 % 64) = v) ↔
      (∃ r2, r2 < n ∧ ∃ c2, c2 < 8 ∧ (mem (i + r2)).testBit (7 - c2) = true ∧
        canvas ((y + r2) % 32) ((x + c2) % 64) = v) := by
  constructor
  · rintro ⟨⟨dy, dx⟩, hp, hpix, hcv⟩
    rw [mem_drawPairs] at hp
    refine ⟨dy, hp.1, dx, hp.2, (and_shift_testBit _ dx hp.2).mp hpix, ?_⟩
    rw [← Nat.mod_mod_of_dvd (y + dy) (by norm_num : (32:ℕ) ∣ 256),
        ← Nat.mod_mod_of_dvd (x + dx) (by norm_num : (64:ℕ) ∣ 256)]
    exact hcv
  · rintro ⟨dy, hdy, dx, hdx, hbit, hcv⟩
    refine ⟨(dy, dx), (mem_drawPairs n (dy, dx)).mpr ⟨hdy, hdx⟩,
      (and_shift_testBit _ dx hdx).mpr hbit, ?_⟩
    rw [Nat.mod_mod_of_dvd _ (by norm_num), Nat.mod_mod_of_dvd _ (by norm_num)]
    exact hcv

/-- C3: executing a draw with start coordinates `(x, y)` and height `n ≤ 15`
toggles, for each sprite row `r < n` and column `c < 8` whose bit `7 - c` of
`memory[i + r]` is set, the framebuffer cell at row `(y + r) % 32`, column
`(x + c) % 64`; cells whose sprite bit is clear are unchanged; and afterwards
the flag register 15 is `1` exactly when some toggle turned a previously lit
cell off (and is never larger than `1`, hence `0` otherwise). -/
theorem draw_blit_spec (m : VirtualMachine) (x y n : Nat)
    (hn : n ≤ 15) (hmem : m.i + n ≤ 4096) (r c : Nat) (hr : r < n) (hc : c < 8) :
    ((m.draw x y n).canvas ((y + r) % 32) ((x + c) % 64) =
      (if (m.memory (m.i + r)).testBit (7 - c) then
        ((m.canvas ((y + r) % 32) ((x + c) % 64)).change).1
      else m.canvas ((y + r) % 32) ((x + c) % 64))) ∧
    (((m.draw x y n).registers 15 = 1) ↔
      (∃ r2, r2 < n ∧ ∃ c2, c2 < 8 ∧ (m.memory (m.i + r2)).testBit (7 - c2) = true ∧
        m.canvas ((y + r2) % 32) ((x + c2) % 64) = CanvasColor.Black)) ∧
    ((m.draw x y n).registers 15 ≤ 1) := by
  have h32 : n ≤ 32 := le_trans hn (by norm_num)
  refine ⟨?_, ?_, draw_flag_le_one m x y n⟩
  · rw [draw_canvas_cell m x y n h32 ((y + r) % 32) ((x + c) % 64)]
    by_cases hbit : (m.memory (m.i + r)).testBit (7 - c) = true
    · rw [if_pos ((drawPairs_cond_at m.memory m.i x y n r c h32 hr hc).mpr
        ((and_shift_testBit _ c hc).mpr hbit))]
      rw [hbit]
      simp
    · rw [if_neg (fun hcond => hbit ((and_shift_testBit _ c hc).mp
        ((drawPairs_cond_at m.memory m.i x y n r c h32 hr hc).mp hcond)))]
      simp only [Bool.not_eq_true] at hbit
      rw [hbit]
      simp
  · rw [draw_flag_eq_one m x y n h32]
    exact drawPairs_flag_cond m.memory m.i x y n m.canvas CanvasColor.Black

/-- C3 witness: the cell equation of `draw_blit_spec` instantiated on the
concrete machine `testDrawMachine` at `x = y = 0`, height 1, row 0, column 0. -/
theorem draw_blit_spec_witness :
    (testDrawMachine.draw 0 0 1).canvas ((0 + 0) % 32) ((0 + 0) % 64) =
      (if (testDrawMachine.memory (testDrawMachine.i + 0)).testBit (7 - 0) then
        ((testDrawMachine.canvas ((0 + 0) % 32) ((0 + 0) % 64)).change).1
      else testDrawMachine.canvas ((0 + 0) % 32) ((0 + 0) % 64)) :=
  (draw_blit_spec testDrawMachine 0 0 1 (by norm_num) (by decide) 0 0
    (by norm_num) (by norm_num)).1

/-- C7 counterexample: on a fully lit framebuffer, drawing the one-byte sprite
`0x80` (which has a set bit) twice at the same position leaves the collision
flag at `0` after the second draw, refuting the claim that the second draw
always reports collision 1 whenever the sprite has a set pixel. -/
theorem draw_twice_collision_cex :
    ((testDrawMachine.memory (testDrawMachine.i + 0)).testBit (7 - 0) = true) ∧
    ¬ (((testDrawMachine.draw 0 0 1).draw 0 0 1).registers 15 = 1) := by
  constructor
  · decide
  · decide

/-- C7 (amended): drawing the same sprite (same `x`, `y`, height `n ≤ 15`,
with `i`, the sprite bytes and the coordinate arguments unchanged) twice in
succession returns the framebuffer exactly to its state before the first draw,
and the second draw sets the collision flag to 1 exactly when the sprite has a
set bit whose target cell was off (`White`) before the first draw — not
merely when the sprite has a set bit, as the original claim stated. -/
theorem draw_twice_spec (m : VirtualMachine) (x y n : Nat)
    (hn : n ≤ 15) (hmem : m.i + n ≤ 4096) :
    (((m.draw x y n).draw x y n).canvas = m.canvas) ∧
    ((((m.draw x y n).draw x y n).registers 15 = 1) ↔
      (∃ r2, r2 < n ∧ ∃ c2, c2 < 8 ∧ (m.memory (m.i + r2)).testBit (7 - c2) = true ∧
        m.canvas ((y + r2) % 32) ((x + c2) % 64) = CanvasColor.White)) := by
  have h32 : n ≤ 32 := le_trans hn (by norm_num)
  constructor
  · funext r c
    rw [draw_canvas_cell (m.draw x y n) x y n h32 r c]
    rw [draw_memory, draw_i]
    rw [draw_canvas_cell m x y n h32 r c]
    by_cases hcond : ∃ p ∈ drawPairs n, m.memory (m.i + p.1) &&& (0x80 >>> p.2) ≠ 0 ∧
        (y + p.1) % 256 % 32 = r ∧ (x + p.2) % 256 % 64 = c
    · rw [if_pos hcond, if_pos hcond, change_fst_involutive]
    · rw [if_neg hcond, if_neg hcond]
  · rw [draw_flag_eq_one (m.draw x y n) x y n h32, draw_memory, draw_i]
    rw [← drawPairs_flag_cond m.memory m.i x y n m.canvas CanvasColor.White]
    constructor
    · rintro ⟨p, hp, hpix, hblack⟩
      have hcell : (m.draw x y n).canvas ((y + p.1) % 256 % 32) ((x + p.2) % 256 % 64) =
          ((m.canvas ((y + p.1) % 256 % 32) ((x + p.2) % 256 % 64)).change).1 := by
        rw [draw_canvas_cell m x y n h32]
        rw [if_pos ⟨p, hp, hpix, rfl, rfl⟩]
      rw [hcell] at hblack
      exact ⟨p, hp, hpix, (change_fst_eq_black _).mp hblack⟩
    · rintro ⟨p, hp, hpix, hwhite⟩
      have hcell : (m.draw x y n).canvas ((y + p.1) % 256 % 32) ((x + p.2) % 256 % 64) =
          ((m.canvas ((y + p.1) % 256 % 32) ((x + p.2) % 256 % 64)).change).1 := by
        rw [draw_canvas_cell m x y n h32]
        rw [if_pos ⟨p, hp, hpix, rfl, rfl⟩]
      exact ⟨p, hp, hpix, by rw [hcell]; exact (change_fst_eq_black _).mpr hwhite⟩

/-- C7 witness: the framebuffer-restoration half of `draw_twice_spec` on the
concrete machine `testDrawMachine`. -/
theorem draw_twice_spec_witness :
    ((testDrawMachine.draw 0 0 1).draw 0 0 1).canvas = testDrawMachine.canvas :=
  (draw_twice_spec testDrawMachine 0 0 1 (by norm_num) (by decide)).1

/-! ### Reduction lemmas for the arithmetic sub-operations -/

theorem execute_math_op4 (m : VirtualMachine) (rx ry : Nat) :
    m.execute_math 0x4 rx ry =
      some ((m.set_flag (if 256 ≤ m.get_register rx + m.get_register ry then 1 else 0)).set_register
        rx ((m.get_register rx + m.get_register ry) % 256)) := rfl

theorem execute_math_op5 (m : VirtualMachine) (rx ry : Nat) :
    m.execute_math 0x5 rx ry =
      some ((m.set_flag (if m.get_register ry ≤ m.get_register rx then 1 else 0)).set_register
        rx ((m.get_register rx + 256 - m.get_register ry) % 256)) := rfl

theorem execute_math_op6 (m : VirtualMachine) (rx ry : Nat) :
    m.execute_math 0x6 rx ry =
      some ((m.set_flag (m.get_register rx &&& 1)).set_register
        rx (m.get_register rx >>> 1)) := rfl

theorem execute_math_op7 (m : VirtualMachine) (rx ry : Nat) :
    m.execute_math 0x7 rx ry =
      some ((m.set_flag (if m.get_register rx ≤ m.get_register ry then 1 else 0)).set_register
        rx ((m.get_register ry + 256 - m.get_register rx) % 256)) := rfl

theorem execute_math_opE (m : VirtualMachine) (rx ry : Nat) :
    m.execute_math 0xE rx ry =
      some ((m.set_flag (m.get_register rx >>> 7)).set_register
        rx ((m.get_register rx <<< 1) % 256)) := rfl

/-! ### C1, C2, C9: arithmetic flag semantics -/

/-- C1 (amended): for register indices X and Y with byte-valued contents,
sub-op 0x4 stores (VX + VY) mod 256 into register X, sub-op 0x5 stores
(VX − VY) mod 256, and sub-op 0x7 stores (VY − VX) mod 256; and provided X is
not register 15 itself, the flag register ends the operation at 1 iff
VX + VY ≥ 256 (0x4), at 1 iff VX ≥ VY (0x5), resp. at 1 iff VY ≥ VX (0x7),
else 0.  The restriction X ≠ 15 is forced by the counterexample
`execute_math_add_flag_cex`: when X is 15 the stored result overwrites the
flag. -/
theorem execute_math_add_sub_flags (m : VirtualMachine) (rx ry : Nat)
    (hx : rx < 16) (hy : ry < 16)
    (ha : m.registers rx < 256) (hb : m.registers ry < 256) :
    ((m.execute_math 0x4 rx ry).map (fun mm => mm.registers rx) =
      some ((m.registers rx + m.registers ry) % 256)) ∧
    (rx ≠ 15 → (m.execute_math 0x4 rx ry).map (fun mm => mm.registers 15) =
      some (if 256 ≤ m.registers rx + m.registers ry then 1 else 0)) ∧
    ((m.execute_math 0x5 rx ry).map (fun mm => (mm.registers rx : Int)) =
      some (((m.registers rx : Int) - (m.registers ry : Int)) % 256)) ∧
    (rx ≠ 15 → (m.execute_math 0x5 rx ry).map (fun mm => mm.registers 15) =
      some (if m.registers ry ≤ m.registers rx then 1 else 0)) ∧
    ((m.execute_math 0x7 rx ry).map (fun mm => (mm.registers rx : Int)) =
      some (((m.registers ry : Int) - (m.registers rx : Int)) % 256)) ∧
    (rx ≠ 15 → (m.execute_math 0x7 rx ry).map (fun mm => mm.registers 15) =
      some (if m.registers rx ≤ m.registers ry then 1 else 0)) := by
  refine ⟨?_, ?_, ?_, ?_, ?_, ?_⟩
  · rw [execute_math_op4]
    simp [VirtualMachine.set_register, VirtualMachine.set_flag, VirtualMachine.get_register]
  · intro h15
    rw [execute_math_op4]
    simp [VirtualMachine.set_register, VirtualMachine.set_flag, VirtualMachine.get_register,
      Ne.symm h15]
  · rw [execute_math_op5]
    simp [VirtualMachine.set_register, VirtualMachine.set_flag, VirtualMachine.get_register]
    omega
  · intro h15
    rw [execute_math_op5]
    simp [VirtualMachine.set_register, VirtualMachine.set_flag, VirtualMachine.get_register,
      Ne.symm h15]
  · rw [execute_math_op7]
    simp [VirtualMachine.set_register, VirtualMachine.set_flag, VirtualMachine.get_register]
    omega
  · intro h15
    rw [execute_math_op7]
    simp [VirtualMachine.set_register, VirtualMachine.set_flag, VirtualMachine.get_register,
      Ne.symm h15]

/-- C1 counterexample: on a machine whose registers all hold 1, sub-op 0x4
with X = 15, Y = 0 computes 1 + 1 = 2 < 256, so the claim requires the flag
register to end the operation at 0; it actually ends at the stored result 2. -/
theorem execute_math_add_flag_cex :
    ¬ ((allOnesMachine.execute_math 0x4 15 0).map (fun mm => mm.registers 15) =
      some 0) := by decide

/-- C1 witness: the 0x4 flag clause of `execute_math_add_sub_flags` on the
all-ones machine with X = 0, Y = 1. -/
theorem execute_math_add_sub_flags_witness :
    (allOnesMachine.execute_math 0x4 0 1).map (fun mm => mm.registers 15) =
      some (if 256 ≤ allOnesMachine.registers 0 + allOnesMachine.registers 1
        then 1 else 0) :=
  (execute_math_add_sub_flags allOnesMachine 0 1 (by norm_num) (by norm_num)
    (by decide) (by decide)).2.1 (by norm_num)

/-- C2 (amended): sub-op 0x6 stores VX logically shifted right by 1 (VX / 2)
into register X and sub-op 0xE stores (VX shifted left by 1) mod 256, i.e.
(VX · 2) mod 256; provided X is not register 15 itself, the flag register ends
the operation at VX's original low bit (0x6) resp. VX's original high bit,
VX / 128 for a byte value (0xE); and register Y's value has no effect on
either the result or the flag.  The restriction X ≠ 15 on the flag clauses is
forced by the counterexample `execute_math_shift_flag_cex`: when X is 15 the
shifted result overwrites the flag. -/
theorem execute_math_shift_spec (m : VirtualMachine) (rx ry : Nat)
    (hx : rx < 16) (hy : ry < 16) (ha : m.registers rx < 256) :
    ((m.execute_math 0x6 rx ry).map (fun mm => mm.registers rx) =
      some (m.registers rx / 2)) ∧
    (rx ≠ 15 → (m.execute_math 0x6 rx ry).map (fun mm => mm.registers 15) =
      some (m.registers rx % 2)) ∧
    ((m.execute_math 0xE rx ry).map (fun mm => mm.registers rx) =
      some ((m.registers rx * 2) % 256)) ∧
    (rx ≠ 15 → (m.execute_math 0xE rx ry).map (fun mm => mm.registers 15) =
      some (m.registers rx / 128)) ∧
    (∀ ry2 : Nat, m.execute_math 0x6 rx ry = m.execute_math 0x6 rx ry2) ∧
    (∀ ry2 : Nat, m.execute_math 0xE rx ry = m.execute_math 0xE rx ry2) := by
  have hshr1 : m.get_register rx >>> 1 = m.registers rx / 2 := by
    rw [Nat.shiftRight_eq_div_pow]; rfl
  have hshr7 : m.get_register rx >>> 7 = m.registers rx / 128 := by
    rw [Nat.shiftRight_eq_div_pow]; rfl
  have hshl : m.get_register rx <<< 1 = m.registers rx * 2 := by
    rw [Nat.shiftLeft_eq]; rfl
  have hand : m.get_register rx &&& 1 = m.registers rx % 2 := Nat.and_one_is_mod _
  refine ⟨?_, ?_, ?_, ?_, ?_, ?_⟩
  · rw [execute_math_op6, hshr1]
    simp [VirtualMachine.set_register, VirtualMachine.set_flag]
  · intro h15
    rw [execute_math_op6, hand]
    simp [VirtualMachine.set_register, VirtualMachine.set_flag, Ne.symm h15]
  · rw [execute_math_opE, hshl]
    simp [VirtualMachine.set_register, VirtualMachine.set_flag]
  · intro h15
    rw [execute_math_opE, hshr7]
    simp [VirtualMachine.set_register, VirtualMachine.set_flag, Ne.symm h15]
  · intro ry2
    rfl
  · intro ry2
    rfl

/-- C2 counterexample: on a machine whose registers all hold 2, sub-op 0x6
with X = 15 requires, per the claim, the flag register to end at VX's original
low bit 2 % 2 = 0; it actually ends at the stored shifted result 2 / 2 = 1. -/
theorem execute_math_shift_flag_cex :
    ¬ ((allTwosMachine.execute_math 0x6 15 0).map (fun mm => mm.registers 15) =
      some (allTwosMachine.registers 15 % 2)) := by decide

/-- C2 witness: the 0x6 flag clause of `execute_math_shift_spec` on the
all-twos machine with X = 0, Y = 1. -/
theorem execute_math_shift_spec_witness :
    (allTwosMachine.execute_math 0x6 0 1).map (fun mm => mm.registers 15) =
      some (allTwosMachine.registers 0 % 2) :=
  (execute_math_shift_spec allTwosMachine 0 1 (by norm_num) (by norm_num)
    (by decide)).2.1 (by norm_num)

/-- C9: when the destination register X of a flag-setting sub-op (0x4, 0x5,
0x6, 0x7 or 0xE) is register 15 itself, register 15 ends the operation holding
the operation's numeric result, not the carry/borrow/shifted-out flag: the
`set_flag` write is overwritten by the final `set_register` write. -/
theorem flag_register_overwrite_spec (m : VirtualMachine) (ry : Nat) :
    ((m.execute_math 0x4 15 ry).map (fun mm => mm.registers 15) =
      some ((m.registers 15 + m.registers ry) % 256)) ∧
    ((m.execute_math 0x5 15 ry).map (fun mm => mm.registers 15) =
      some ((m.registers 15 + 256 - m.registers ry) % 256)) ∧
    ((m.execute_math 0x6 15 ry).map (fun mm => mm.registers 15) =
      some (m.registers 15 >>> 1)) ∧
    ((m.execute_math 0x7 15 ry).map (fun mm => mm.registers 15) =
      some ((m.registers ry + 256 - m.registers 15) % 256)) ∧
    ((m.execute_math 0xE 15 ry).map (fun mm => mm.registers 15) =
      some ((m.registers 15 <<< 1) % 256)) := by
  refine ⟨?_, ?_, ?_, ?_, ?_⟩ <;>
    first
    | (rw [execute_math_op4]
       simp [VirtualMachine.set_register, VirtualMachine.set_flag,
         VirtualMachine.get_register])
    | (rw [execute_math_op5]
       simp [VirtualMachine.set_register, VirtualMachine.set_flag,
         VirtualMachine.get_register])
    | (rw [execute_math_op6]
       simp [VirtualMachine.set_register, VirtualMachine.set_flag,
         VirtualMachine.get_register])
    | (rw [execute_math_op7]
       simp [VirtualMachine.set_register, VirtualMachine.set_flag,
         VirtualMachine.get_register])
    | (rw [execute_math_opE]
       simp [VirtualMachine.set_register, VirtualMachine.set_flag,
         VirtualMachine.get_register])

/-! ### C5: the sound-timer write opcode 0xFX18 -/

/-- C5 (amended): executing `0xFX18` stores register X's value into the sound
timer exactly as it is — no floor of 2 is applied (the original claim's floor
is refuted by `sound_timer_no_floor_cex`); the cycle then advances PC by 2 and
changes nothing else. -/
theorem sound_timer_write_spec (m : VirtualMachine) (x : Nat) (hx : x < 16)
    (hpc : m.pc + 1 < 4096)
    (hb1 : m.memory m.pc = 0xF0 + x)
    (hb2 : m.memory (m.pc + 1) = 0x18)
    (random : Nat) :
    m.execute_opcode random =
      some { m with
        sound_timer := m.registers x,
        pc := m.pc + 2,
        should_increment_pc := true } := by
  have hlt : 240 + x < 256 := by omega
  have hcls : ((240 + x) &&& 0xF0) >>> 4 = 15 := by
    rw [decode_hi_nibble (240 + x) hlt]; omega
  have hrx : (240 + x) &&& 0x0F = x := by
    rw [decode_lo_nibble (240 + x) hlt]; omega
  simp only [VirtualMachine.execute_opcode, VirtualMachine.get_memory, hb1, hb2,
    hcls, hrx, VirtualMachine.get_register]
  rw [if_pos hpc]
  norm_num [VirtualMachine.finish_cycle, VirtualMachine.inc_pc]

/-- C5 counterexample: `soundMachine` executes `0xF018` with register 0
holding 1; the sound timer ends at 1, not at the floored value 2 that the
claim requires for writes below 2. -/
theorem sound_timer_no_floor_cex :
    ((soundMachine.execute_opcode 0).map (fun mm => mm.sound_timer) = some 1) ∧
    ¬ ((soundMachine.execute_opcode 0).map (fun mm => mm.sound_timer) = some 2) := by
  constructor
  · decide
  · decide

/-- C5 witness: `sound_timer_write_spec` applied to the concrete machine
`soundMachine`. -/
theorem sound_timer_write_spec_witness :
    soundMachine.execute_opcode 0 =
      some { soundMachine with
        sound_timer := soundMachine.registers 0,
        pc := soundMachine.pc + 2,
        should_increment_pc := true } :=
  sound_timer_write_spec soundMachine 0 (by norm_num) (by decide) (by decide)
    (by decide) 0

/-! ### C4: the key-wait opcode 0xFX0A -/

/-- C4: executing `0xFX0A` with an empty pressed-key latch leaves PC unchanged
at the end of the cycle (the same instruction will be fetched again), while
with the latch holding key `k` it stores `k` into register X, clears the latch
and ends the cycle with PC advanced by 2. -/
theorem key_wait_cycle_spec (m : VirtualMachine) (x : Nat) (hx : x < 16)
    (hpc : m.pc + 1 < 4096)
    (hb1 : m.memory m.pc = 0xF0 + x)
    (hb2 : m.memory (m.pc + 1) = 0x0A)
    (random : Nat) :
    (m.pressed_key = none →
      m.execute_opcode random =
        some { m with pressed_key := none, should_increment_pc := true }) ∧
    (∀ k : Nat, m.pressed_key = some k →
      m.execute_opcode random =
        some { m with
          registers := fun r => if r = x then k else m.registers r,
          pressed_key := none,
          pc := m.pc + 2,
          should_increment_pc := true }) := by
  have hlt : 240 + x < 256 := by omega
  have hcls : ((240 + x) &&& 0xF0) >>> 4 = 15 := by
    rw [decode_hi_nibble (240 + x) hlt]; omega
  have hrx : (240 + x) &&& 0x0F = x := by
    rw [decode_lo_nibble (240 + x) hlt]; omega
  constructor
  · intro hkey
    simp only [VirtualMachine.execute_opcode, VirtualMachine.get_memory, hb1, hb2,
      hcls, hrx, hkey]
    rw [if_pos hpc]
    norm_num
  · intro k hkey
    simp only [VirtualMachine.execute_opcode, VirtualMachine.get_memory, hb1, hb2,
      hcls, hrx, hkey]
    rw [if_pos hpc]
    norm_num [VirtualMachine.finish_cycle, VirtualMachine.inc_pc,
      VirtualMachine.set_register]

/-- C4 witness: the full-latch clause of `key_wait_cycle_spec` on the concrete
machine `keyMachine` (opcode `0xF30A`, latch holding key 7). -/
theorem key_wait_cycle_spec_witness :
    keyMachine.execute_opcode 0 =
      some { keyMachine with
        registers := fun r => if r = 3 then 7 else keyMachine.registers r,
        pressed_key := none,
        pc := keyMachine.pc + 2,
        should_increment_pc := true } :=
  (key_wait_cycle_spec keyMachine 3 (by norm_num) (by decide) (by decide)
    (by decide) 0).2 7 (by decide)

/-! ### C8: the conditional-skip family -/

/-- C8: each conditional-skip opcode — skip-if-byte equal (`0x3XNN`) and
not-equal (`0x4XNN`), skip-if-register equal (`0x5XY0`) and not-equal
(`0x9XY0`), skip-if-key pressed (`0xEX9E`) and not-pressed (`0xEXA1`) — ends
its cycle with PC advanced by 4 exactly when its predicate holds and by 2
otherwise; the record-update form of each conclusion shows that memory, all
registers, the stack and its depth, `i`, both timers, the pressed-key latch
and the framebuffer are left unchanged. -/
theorem skip_family_cycle_spec (m : VirtualMachine) (random : Nat)
    (hpc : m.pc + 1 < 4096) :
    (∀ x b2 : Nat, x < 16 → b2 < 256 →
      m.memory m.pc = 0x30 + x → m.memory (m.pc + 1) = b2 →
      m.execute_opcode random = some { m with
        pc := m.pc + (if m.registers x = b2 then 4 else 2),
        should_increment_pc := true }) ∧
    (∀ x b2 : Nat, x < 16 → b2 < 256 →
      m.memory m.pc = 0x40 + x → m.memory (m.pc + 1) = b2 →
      m.execute_opcode random = some { m with
        pc := m.pc + (if m.registers x = b2 then 2 else 4),
        should_increment_pc := true }) ∧
    (∀ x ry : Nat, x < 16 → ry < 16 →
      m.memory m.pc = 0x50 + x → m.memory (m.pc + 1) = ry * 16 →
      m.execute_opcode random = some { m with
        pc := m.pc + (if m.registers x = m.registers ry then 4 else 2),
        should_increment_pc := true }) ∧
    (∀ x ry : Nat, x < 16 → ry < 16 →
      m.memory m.pc = 0x90 + x → m.memory (m.pc + 1) = ry * 16 →
      m.execute_opcode random = some { m with
        pc := m.pc + (if m.registers x = m.registers ry then 2 else 4),
        should_increment_pc := true }) ∧
    (∀ x : Nat, x < 16 →
      m.memory m.pc = 0xE0 + x → m.memory (m.pc + 1) = 0x9E →
      m.execute_opcode random = some { m with
        pc := m.pc + (if m.pressed_key = some (m.registers x) then 4 else 2),
        should_increment_pc := true }) ∧
    (∀ x : Nat, x < 16 →
      m.memory m.pc = 0xE0 + x → m.memory (m.pc + 1) = 0xA1 →
      m.execute_opcode random = some { m with
        pc := m.pc + (if m.pressed_key = some (m.registers x) then 2 else 4),
        should_increment_pc := true }) := by
  refine ⟨?_, ?_, ?_, ?_, ?_, ?_⟩
  · intro x b2 hx hblt hb1 hb2
    have hlt : 48 + x < 256 := by omega
    have hcls : ((48 + x) &&& 0xF0) >>> 4 = 3 := by
      rw [decode_hi_nibble (48 + x) hlt]; omega
    have hrx : (48 + x) &&& 0x0F = x := by
      rw [decode_lo_nibble (48 + x) hlt]; omega
    simp only [VirtualMachine.execute_opcode, VirtualMachine.get_memory, hb1, hb2,
      hcls, hrx]
    rw [if_pos hpc]
    by_cases hcond : m.registers x = b2
    · norm_num [VirtualMachine.skip_if_byte, VirtualMachine.get_register,
        VirtualMachine.finish_cycle, VirtualMachine.inc_pc, hcond]
    · norm_num [VirtualMachine.skip_if_byte, VirtualMachine.get_register,
        VirtualMachine.finish_cycle, VirtualMachine.inc_pc, hcond]
  · intro x b2 hx hblt hb1 hb2
    have hlt : 64 + x < 256 := by omega
    have hcls : ((64 + x) &&& 0xF0) >>> 4 = 4 := by
      rw [decode_hi_nibble (64 + x) hlt]; omega
    have hrx : (64 + x) &&& 0x0F = x := by
      rw [decode_lo_nibble (64 + x) hlt]; omega
    simp only [VirtualMachine.execute_opcode, VirtualMachine.get_memory, hb1, hb2,
      hcls, hrx]
    rw [if_pos hpc]
    by_cases hcond : m.registers x = b2
    · norm_num [VirtualMachine.skip_if_byte, VirtualMachine.get_register,
        VirtualMachine.finish_cycle, VirtualMachine.inc_pc, hcond]
    · norm_num [VirtualMachine.skip_if_byte, VirtualMachine.get_register,
        VirtualMachine.finish_cycle, VirtualMachine.inc_pc, hcond]
  · intro x ry hx hry hb1 hb2
    have hlt : 80 + x < 256 := by omega
    have hblt : ry * 16 < 256 := by omega
    have hcls : ((80 + x) &&& 0xF0) >>> 4 = 5 := by
      rw [decode_hi_nibble (80 + x) hlt]; omega
    have hrx : (80 + x) &&& 0x0F = x := by
      rw [decode_lo_nibble (80 + x) hlt]; omega
    have hryd : (ry * 16) >>> 4 = ry := by
      rw [decode_y_nibble (ry * 16) hblt]; omega
    have hnib : (ry * 16) &&& 0x0F = 0 := by
      rw [decode_lo_nibble (ry * 16) hblt]; omega
    simp only [VirtualMachine.execute_opcode, VirtualMachine.get_memory, hb1, hb2,
      hcls, hrx, hryd, hnib]
    rw [if_pos hpc]
    by_cases hcond : m.registers x = m.registers ry
    · norm_num [VirtualMachine.skip_if_register, VirtualMachine.get_register,
        VirtualMachine.finish_cycle, VirtualMachine.inc_pc, hcond]
    · norm_num [VirtualMachine.skip_if_register, VirtualMachine.get_register,
        VirtualMachine.finish_cycle, VirtualMachine.inc_pc, hcond]
  · intro x ry hx hry hb1 hb2
    have hlt : 144 + x < 256 := by omega
    have hblt : ry * 16 < 256 := by omega
    have hcls : ((144 + x) &&& 0xF0) >>> 4 = 9 := by
      rw [decode_hi_nibble (144 + x) hlt]; omega
    have hrx : (144 + x) &&& 0x0F = x := by
      rw [decode_lo_nibble (144 + x) hlt]; omega
    have hryd : (ry * 16) >>> 4 = ry := by
      rw [decode_y_nibble (ry * 16) hblt]; omega
    have hnib : (ry * 16) &&& 0x0F = 0 := by
      rw [decode_lo_nibble (ry * 16) hblt]; omega
    simp only [VirtualMachine.execute_opcode, VirtualMachine.get_memory, hb1, hb2,
      hcls, hrx, hryd, hnib]
    rw [if_pos hpc]
    by_cases hcond : m.registers x = m.registers ry
    · norm_num [VirtualMachine.skip_if_register, VirtualMachine.get_register,
        VirtualMachine.finish_cycle, VirtualMachine.inc_pc, hcond]
    · norm_num [VirtualMachine.skip_if_register, VirtualMachine.get_register,
        VirtualMachine.finish_cycle, VirtualMachine.inc_pc, hcond]
  · intro x hx hb1 hb2
    have hlt : 224 + x < 256 := by omega
    have hcls : ((224 + x) &&& 0xF0) >>> 4 = 14 := by
      rw [decode_hi_nibble (224 + x) hlt]; omega
    have hrx : (224 + x) &&& 0x0F = x := by
      rw [decode_lo_nibble (224 + x) hlt]; omega
    simp only [VirtualMachine.execute_opcode, VirtualMachine.get_memory, hb1, hb2,
      hcls, hrx]
    rw [if_pos hpc]
    cases hkey : m.pressed_key with
    | none =>
      norm_num [VirtualMachine.skip_if_key, VirtualMachine.get_register,
        VirtualMachine.finish_cycle, VirtualMachine.inc_pc, hkey]
      rw [if_neg (fun h => Option.noConfusion h)]
    | some k =>
      by_cases hk : k = m.registers x
      · norm_num [VirtualMachine.skip_if_key, VirtualMachine.get_register,
          VirtualMachine.finish_cycle, VirtualMachine.inc_pc, hkey, hk]
      · norm_num [VirtualMachine.skip_if_key, VirtualMachine.get_register,
          VirtualMachine.finish_cycle, VirtualMachine.inc_pc, hkey, hk]
  · intro x hx hb1 hb2
    have hlt : 224 + x < 256 := by omega
    have hcls : ((224 + x) &&& 0xF0) >>> 4 = 14 := by
      rw [decode_hi_nibble (224 + x) hlt]; omega
    have hrx : (224 + x) &&& 0x0F = x := by
      rw [decode_lo_nibble (224 + x) hlt]; omega
    simp only [VirtualMachine.execute_opcode, VirtualMachine.get_memory, hb1, hb2,
      hcls, hrx]
    rw [if_pos hpc]
    cases hkey : m.pressed_key with
    | none =>
      norm_num [VirtualMachine.skip_if_key, VirtualMachine.get_register,
        VirtualMachine.finish_cycle, VirtualMachine.inc_pc, hkey]
      rw [if_neg (fun h => Option.noConfusion h)]
    | some k =>
      by_cases hk : k = m.registers x
      · norm_num [VirtualMachine.skip_if_key, VirtualMachine.get_register,
          VirtualMachine.finish_cycle, VirtualMachine.inc_pc, hkey, hk]
      · norm_num [VirtualMachine.skip_if_key, VirtualMachine.get_register,
          VirtualMachine.finish_cycle, VirtualMachine.inc_pc, hkey, hk]

/-- C8 witness: the skip-if-byte-equal clause of `skip_family_cycle_spec` on
the concrete machine `skipMachine` (opcode `0x3000`, V0 = 0, so the predicate
holds and PC advances by 4). -/
theorem skip_family_cycle_spec_witness :
    skipMachine.execute_opcode 0 = some { skipMachine with
      pc := skipMachine.pc + (if skipMachine.registers 0 = 0 then 4 else 2),
      should_increment_pc := true } :=
  (skip_family_cycle_spec skipMachine 0 (by decide)).1 0 0 (by norm_num)
    (by norm_num) (by decide) (by decide)

/-! ### C6: call and return -/

/-- C6: a CALL opcode (`0x2NNN`, and also the legacy class-0 opcode with a
second byte other than `0xE0`/`0xEE`) pushes the current PC — the value PC
holds after the automatic advance, i.e. the return address `pc + 2` — onto the
call stack, increases the stack depth by exactly one and sets PC to the 12-bit
address operand; RETURN (`0x00EE`) pops the saved value into PC, decreasing
the depth by exactly one; and RETURN with an empty stack is the fatal fault
`none` (the assertion `stack_size >= 1` fails), so the run terminates. -/
theorem call_return_cycle_spec (m : VirtualMachine) (random : Nat)
    (hpc : m.pc + 1 < 4096) :
    (∀ x b2 : Nat, x < 16 → b2 < 256 →
      m.memory m.pc = 0x20 + x → m.memory (m.pc + 1) = b2 → m.stack_size < 100 →
      m.execute_opcode random = some { m with
        stack := fun k => if k = m.stack_size then m.pc + 2 else m.stack k,
        stack_size := m.stack_size + 1,
        pc := x * 256 + b2,
        should_increment_pc := false }) ∧
    (∀ x b2 : Nat, x < 16 → b2 < 256 →
      m.memory m.pc = x → m.memory (m.pc + 1) = b2 →
      b2 ≠ 0xE0 → b2 ≠ 0xEE → m.stack_size < 100 →
      m.execute_opcode random = some { m with
        stack := fun k => if k = m.stack_size then m.pc + 2 else m.stack k,
        stack_size := m.stack_size + 1,
        pc := x * 256 + b2,
        should_increment_pc := false }) ∧
    (∀ x : Nat, x < 16 →
      m.memory m.pc = x → m.memory (m.pc + 1) = 0xEE → 1 ≤ m.stack_size →
      m.execute_opcode random = some { m with
        stack_size := m.stack_size - 1,
        pc := m.stack (m.stack_size - 1),
        should_increment_pc := false }) ∧
    (∀ x : Nat, x < 16 →
      m.memory m.pc = x → m.memory (m.pc + 1) = 0xEE → m.stack_size = 0 →
      m.execute_opcode random = none) := by
  refine ⟨?_, ?_, ?_, ?_⟩
  · intro x b2 hx hblt hb1 hb2 hsize
    have hlt : 32 + x < 256 := by omega
    have hcls : ((32 + x) &&& 0xF0) >>> 4 = 2 := by
      rw [decode_hi_nibble (32 + x) hlt]; omega
    have hrx : (32 + x) &&& 0x0F = x := by
      rw [decode_lo_nibble (32 + x) hlt]; omega
    have haddr : ((x <<< 8) ||| b2 : Nat) = x * 256 + b2 := decode_address x hx b2 hblt
    simp only [VirtualMachine.execute_opcode, VirtualMachine.get_memory, hb1, hb2,
      hcls, hrx, haddr]
    rw [if_pos hpc]
    norm_num [VirtualMachine.call, VirtualMachine.inc_pc, VirtualMachine.finish_cycle,
      hsize]
  · intro x b2 hx hblt hb1 hb2 hne1 hne2 hsize
    have hlt : x < 256 := by omega
    have hcls : (x &&& 0xF0) >>> 4 = 0 := by
      rw [decode_hi_nibble x hlt]; omega
    have hrx : x &&& 0x0F = x := by
      rw [decode_lo_nibble x hlt]; omega
    have haddr : ((x <<< 8) ||| b2 : Nat) = x * 256 + b2 := decode_address x hx b2 hblt
    simp only [VirtualMachine.execute_opcode, VirtualMachine.get_memory, hb1, hb2,
      hcls, hrx, haddr]
    rw [if_pos hpc]
    norm_num [VirtualMachine.call, VirtualMachine.inc_pc, VirtualMachine.finish_cycle,
      hsize, hne1, hne2]
  · intro x hx hb1 hb2 hsize
    have hlt : x < 256 := by omega
    have hcls : (x &&& 0xF0) >>> 4 = 0 := by
      rw [decode_hi_nibble x hlt]; omega
    simp only [VirtualMachine.execute_opcode, VirtualMachine.get_memory, hb1, hb2, hcls]
    rw [if_pos hpc]
    norm_num [VirtualMachine._return, VirtualMachine.finish_cycle, hsize]
  · intro x hx hb1 hb2 hsize
    have hlt : x < 256 := by omega
    have hcls : (x &&& 0xF0) >>> 4 = 0 := by
      rw [decode_hi_nibble x hlt]; omega
    simp only [VirtualMachine.execute_opcode, VirtualMachine.get_memory, hb1, hb2, hcls]
    rw [if_pos hpc]
    norm_num [VirtualMachine._return, VirtualMachine.finish_cycle, hsize]

/-- C6 witness: the CALL clause of `call_return_cycle_spec` on the concrete
machine `callMachine` (opcode `0x2234` with an empty stack). -/
theorem call_return_cycle_spec_witness :
    callMachine.execute_opcode 0 = some { callMachine with
      stack := fun k => if k = callMachine.stack_size then callMachine.pc + 2
        else callMachine.stack k,
      stack_size := callMachine.stack_size + 1,
      pc := 2 * 256 + 0x34,
      should_increment_pc := false } :=
  (call_return_cycle_spec callMachine 0 (by decide)).1 2 0x34 (by norm_num)
    (by norm_num) (by decide) (by decide) (by decide)

/-! ### C10: frame properties of the memory-transfer routines -/

theorem dump_foldl_frame (L : List Nat) :
    ∀ m : VirtualMachine,
      ((L.foldl (fun mm index => mm.set_memory (mm.i + index) (mm.get_register index))
          m).i = m.i) ∧
      ((L.foldl (fun mm index => mm.set_memory (mm.i + index) (mm.get_register index))
          m).registers = m.registers) ∧
      (∀ a : Nat, (∀ idx ∈ L, a ≠ m.i + idx) →
        (L.foldl (fun mm index => mm.set_memory (mm.i + index) (mm.get_register index))
          m).memory a = m.memory a) := by
  induction L with
  | nil => intro m; exact ⟨rfl, rfl, fun a _ => rfl⟩
  | cons j T ih =>
    intro m
    rw [List.foldl_cons]
    obtain ⟨hi, hr, hm⟩ := ih (m.set_memory (m.i + j) (m.get_register j))
    refine ⟨hi, hr, ?_⟩
    intro a ha
    have haj : a ≠ m.i + j := ha j (List.mem_cons_self j T)
    have h2 : ∀ idx ∈ T, a ≠ (m.set_memory (m.i + j) (m.get_register j)).i + idx :=
      fun idx hidx => ha idx (List.mem_cons_of_mem j hidx)
    rw [hm a h2]
    show (if a = m.i + j then m.get_register j else m.memory a) = m.memory a
    rw [if_neg haj]

theorem load_foldl_frame (L : List Nat) :
    ∀ m : VirtualMachine,
      ((L.foldl (fun mm index => mm.set_register index (mm.get_memory (mm.i + index)))
          m).i = m.i) ∧
      ((L.foldl (fun mm index => mm.set_register index (mm.get_memory (mm.i + index)))
          m).memory = m.memory) ∧
      (∀ r : Nat, (∀ idx ∈ L, r ≠ idx) →
        (L.foldl (fun mm index => mm.set_register index (mm.get_memory (mm.i + index)))
          m).registers r = m.registers r) := by
  induction L with
  | nil => intro m; exact ⟨rfl, rfl, fun r _ => rfl⟩
  | cons j T ih =>
    intro m
    rw [List.foldl_cons]
    obtain ⟨hi, hmem, hr⟩ := ih (m.set_register j (m.get_memory (m.i + j)))
    refine ⟨hi, hmem, ?_⟩
    intro r hr2
    have hrj : r ≠ j := hr2 j (List.mem_cons_self j T)
    have h2 : ∀ idx ∈ T, r ≠ idx :=
      fun idx hidx => hr2 idx (List.mem_cons_of_mem j hidx)
    rw [hr r h2]
    show (if r = j then m.get_memory (m.i + j) else m.registers r) = m.registers r
    rw [if_neg hrj]

/-- C10: the register-dump (`0xFX55`), register-load (`0xFX65`) and BCD-store
(`0xFX33`) routines leave the index register `i` unchanged; dump writes only
the memory cells `i..i+X` (and no register), load writes only registers
`0..X` (and no memory cell), and BCD writes only the cells `i`, `i+1`, `i+2`
(and no register). -/
theorem transfer_ops_frame_spec (m : VirtualMachine) (x : Nat) (hx : x < 16)
    (hbound : m.i + x < 4096) :
    ((m.dump_registers x).i = m.i ∧ (m.dump_registers x).registers = m.registers ∧
      ∀ a : Nat, (a < m.i ∨ m.i + x < a) →
        (m.dump_registers x).memory a = m.memory a) ∧
    ((m.load_registers x).i = m.i ∧ (m.load_registers x).memory = m.memory ∧
      ∀ r : Nat, x < r → (m.load_registers x).registers r = m.registers r) ∧
    ((m.set_bcd x).i = m.i ∧ (m.set_bcd x).registers = m.registers ∧
      ∀ a : Nat, a ≠ m.i ∧ a ≠ m.i + 1 ∧ a ≠ m.i + 2 →
        (m.set_bcd x).memory a = m.memory a) := by
  refine ⟨?_, ?_, ?_⟩
  · obtain ⟨hi, hr, hm⟩ := dump_foldl_frame (List.range (x + 1)) m
    refine ⟨hi, hr, ?_⟩
    intro a ha
    refine hm a ?_
    intro idx hidx
    rw [List.mem_range] at hidx
    omega
  · obtain ⟨hi, hmem, hr⟩ := load_foldl_frame (List.range (x + 1)) m
    refine ⟨hi, hmem, ?_⟩
    intro r hrx
    refine hr r ?_
    intro idx hidx
    rw [List.mem_range] at hidx
    omega
  · refine ⟨rfl, rfl, ?_⟩
    intro a ⟨h0, h1, h2⟩
    show (if a = m.i + 2 then _ else if a = m.i + 1 then _ else
      if a = m.i then _ else m.memory a) = m.memory a
    rw [if_neg h2, if_neg h1, if_neg h0]

/-- C10 witness: `transfer_ops_frame_spec` on the freshly constructed machine
with X = 3, projected to the dump clause's invariance of `i`. -/
theorem transfer_ops_frame_spec_witness :
    (VirtualMachine.initial.dump_registers 3).i = VirtualMachine.initial.i :=
  (transfer_ops_frame_spec VirtualMachine.initial 3 (by norm_num) (by decide)).1.1
